import Mathlib

/-!
Shallow embedding of `src/tree-sitter-neon/src/scanner.c`, the external
scanner for string interpolation in the neon tree-sitter grammar.

Modelling conventions:
* Characters are `Nat` code points; the host lexer's `lookahead` field is
  modelled as `input.getD pos 0`, so position past the end of input yields
  the sentinel `0`, exactly as `lexer->lookahead == 0` at end of input
  (an embedded NUL byte behaves the same way in the C code and in the model).
* `TSLexer` captures the cursor facilities the scanner uses: the current
  position (`pos`, advanced by `lexer->advance`), the committed token end
  (`marked`, set by `lexer->mark_end`, `none` while unset), and the
  `result_symbol` output slot.  The host zero-initialises `result_symbol`
  before each scan; symbol 0 is `STRING_CONTENT`.
* The C `int brace_depth` is an `Int`; serialization is modelled as the
  4-byte little-endian two's-complement image of the value, matching the
  `memcpy` of `sizeof(int)` bytes on the target platform.  A nonzero
  buffer shorter than 4 bytes makes the C `memcpy` read out of bounds
  (undefined behavior); no theorem below evaluates `deserialize` on such
  a buffer.
-/

inductive TokenType where
  | STRING_CONTENT
  | STRING_INTERPOLATION_START
  | STRING_INTERPOLATION_END
deriving DecidableEq

structure Scanner where
  brace_depth : Int
deriving DecidableEq

/-- The `valid_symbols` array handed to `scan`, indexed by the three token kinds. -/
structure ValidSymbols where
  string_content : Bool
  string_interpolation_start : Bool
  string_interpolation_end : Bool
deriving DecidableEq

/-- The portion of the host `TSLexer` object the scanner reads and writes. -/
structure TSLexer where
  input : List Nat
  pos : Nat
  marked : Option Nat
  result_symbol : TokenType
deriving DecidableEq

structure ScanOut where
  returned : Bool
  scanner : Scanner
  lexer : TSLexer
deriving DecidableEq

/-- `tree_sitter_neon_external_scanner_create`: calloc-zeroed state with
`brace_depth = 0`. -/
def create : Scanner := ⟨0⟩

/-- Little-endian 4-byte image of a C `int` value (the `memcpy` in
`tree_sitter_neon_external_scanner_serialize`). -/
def intToBytes (d : Int) : List Nat :=
  let u : Nat := (d % 4294967296).toNat
  [u % 256, u / 256 % 256, u / 65536 % 256, u / 16777216 % 256]

/-- Reading a C `int` back from the first 4 bytes of a buffer (the `memcpy`
in `tree_sitter_neon_external_scanner_deserialize`). -/
def bytesToInt (b : List Nat) : Int :=
  let u : Nat := b.getD 0 0 + 256 * b.getD 1 0 + 65536 * b.getD 2 0 + 16777216 * b.getD 3 0
  if u < 2147483648 then (u : Int) else (u : Int) - 4294967296

/-- `tree_sitter_neon_external_scanner_serialize`: writes `sizeof(int)` = 4
bytes of `brace_depth` into the buffer and returns 4 (the buffer length). -/
def serialize (s : Scanner) : List Nat := intToBytes s.brace_depth

/-- `tree_sitter_neon_external_scanner_deserialize`: copies the first
`sizeof(int)` bytes into `brace_depth` when `length > 0`, and otherwise
leaves the scanner state untouched. -/
def deserialize (s : Scanner) (buffer : List Nat) (length : Nat) : Scanner :=
  if 0 < length then ⟨bytesToInt (buffer.take 4)⟩ else s

/-- Exit record of the string-content `while (true)` loop.
`early = true` means the loop returned from the whole scan inside the
`$`-peek (`return has_content;`); `early = false` means a `break`. -/
structure ContentExit where
  early : Bool
  pos : Nat
  marked : Option Nat
  has_content : Bool
deriving DecidableEq

/-- The `while (true)` loop of the `STRING_CONTENT` branch, walking the
remaining input `rem = input.drop pos`.  `pos` is threaded so that exit
positions are absolute; `marked` tracks `mark_end` calls. -/
def content_loop : List Nat → Nat → Option Nat → Bool → ContentExit
  | [], pos, marked, hc => ⟨false, pos, marked, hc⟩
  | c :: rest, pos, marked, hc =>
    if c = 34 ∨ c = 0 then ⟨false, pos, marked, hc⟩        -- '"' or end of input
    else if c = 92 then ⟨false, pos, marked, hc⟩            -- '\\'
    else if c = 36 then                                     -- '$': mark_end; advance
      if rest.getD 0 0 = 123 then ⟨true, pos + 1, some pos, hc⟩  -- "${": return has_content
      else content_loop rest (pos + 1) (some pos) true      -- '$' is ordinary content
    else content_loop rest (pos + 1) marked true            -- ordinary character

/-- The content loop as run by the `STRING_CONTENT` branch: it starts at the
lexer's current position with `has_content = false`. -/
def cexit (l : TSLexer) : ContentExit :=
  content_loop (l.input.drop l.pos) l.pos l.marked false

/-- The `valid_symbols[STRING_CONTENT]` branch body. -/
def scan_string_content (s : Scanner) (l : TSLexer) : ScanOut :=
  let e := cexit l
  if e.early then ⟨e.has_content, s, ⟨l.input, e.pos, e.marked, l.result_symbol⟩⟩
  else if e.has_content then ⟨true, s, ⟨l.input, e.pos, some e.pos, .STRING_CONTENT⟩⟩
  else ⟨false, s, ⟨l.input, e.pos, e.marked, l.result_symbol⟩⟩

def scan_from_content (s : Scanner) (l : TSLexer) (valid : ValidSymbols) : ScanOut :=
  if valid.string_content then scan_string_content s l
  else ⟨false, s, l⟩

/-- `scan` from the `STRING_INTERPOLATION_END` check onwards. -/
def scan_from_close (s : Scanner) (l : TSLexer) (valid : ValidSymbols) : ScanOut :=
  if valid.string_interpolation_end then
    if l.input.getD l.pos 0 = 125 ∧ 0 < s.brace_depth then   -- '}' and brace_depth > 0
      ⟨true, ⟨0⟩, ⟨l.input, l.pos + 1, some (l.pos + 1), .STRING_INTERPOLATION_END⟩⟩
    else scan_from_content s l valid
  else scan_from_content s l valid

/-- `tree_sitter_neon_external_scanner_scan`.  The `STRING_INTERPOLATION_START`
branch advances past a leading `'$'` (36) and only succeeds when `'{'` (123)
follows; when it does not, the scan falls through with the `'$'` consumed. -/
def scan (s : Scanner) (l : TSLexer) (valid : ValidSymbols) : ScanOut :=
  if valid.string_interpolation_start then
    if l.input.getD l.pos 0 = 36 then
      if l.input.getD (l.pos + 1) 0 = 123 then
        ⟨true, ⟨1⟩, ⟨l.input, l.pos + 2, some (l.pos + 2), .STRING_INTERPOLATION_START⟩⟩
      else scan_from_close s { l with pos := l.pos + 1 } valid
    else scan_from_close s l valid
  else scan_from_close s l valid

/-- A scan outcome carries token kind `t` when it returned `true` with
`result_symbol` set to `t`. -/
def emits (o : ScanOut) (t : TokenType) : Prop :=
  o.returned = true ∧ o.lexer.result_symbol = t

instance (o : ScanOut) (t : TokenType) : Decidable (emits o t) := by
  unfold emits; infer_instance

/-- The committed end of the token on success: the last `mark_end` position,
or the current position when `mark_end` was never called. -/
def commitEnd (o : ScanOut) : Nat := o.lexer.marked.getD o.lexer.pos

/-- Scanner states reachable through the session operations: creation, scans,
and restoring a serialized snapshot of a reachable state (the host only ever
feeds `deserialize` bytes previously produced by `serialize`, §5 of the spec). -/
inductive Reachable : Scanner → Prop where
  | initial : Reachable create
  | step (s : Scanner) (l : TSLexer) (v : ValidSymbols) :
      Reachable s → Reachable (scan s l v).scanner
  | restore (s t : Scanner) :
      Reachable s → Reachable t →
      Reachable (deserialize t (serialize s) (serialize s).length)

/-! ### Helper lemmas about list indexing -/

theorem getD_drop_aux (input : List Nat) :
    ∀ (n j : Nat), (input.drop n).getD j 0 = input.getD (n + j) 0 := by
  induction input with
  | nil => intro n j; simp
  | cons a t ih =>
    intro n j
    cases n with
    | zero => simp
    | succ k =>
      have h1 : (a :: t).drop (k + 1) = t.drop k := rfl
      have h2 : k + 1 + j = (k + j) + 1 := by omega
      rw [h1, h2, List.getD_cons_succ, ih]

theorem drop_cons_rest (input : List Nat) :
    ∀ (pos : Nat) (c : Nat) (rest : List Nat),
      input.drop pos = c :: rest → input.drop (pos + 1) = rest := by
  induction input with
  | nil => intro pos c rest h; simp at h
  | cons a t ih =>
    intro pos c rest h
    cases pos with
    | zero =>
      simp at h
      simpa using h.2
    | succ k =>
      have h1 : (a :: t).drop (k + 1) = t.drop k := rfl
      rw [h1] at h
      have h2 : (a :: t).drop (k + 1 + 1) = t.drop (k + 1) := rfl
      rw [h2]
      exact ih k c rest h

theorem drop_eq_cons_head (input : List Nat) (pos c : Nat) (rest : List Nat)
    (h : input.drop pos = c :: rest) : input.getD pos 0 = c := by
  have := getD_drop_aux input pos 0
  rw [h] at this
  simpa using this.symm

theorem drop_eq_nil_head (input : List Nat) (pos : Nat)
    (h : input.drop pos = []) : input.getD pos 0 = 0 := by
  have := getD_drop_aux input pos 0
  rw [h] at this
  simpa using this.symm

/-! ### Behaviour of the content loop -/

/-- Structural facts about the content loop that do not mention the input
characters: the exit position never moves backwards; `has_content` is sticky;
a run that saw no content stopped within one speculative advance of its start;
an early (`${`) exit sits one past the `'$'` it marked; and a run that starts
with no content and ends with content has consumed at least one character
before its committed end. -/
theorem content_loop_basic (rem : List Nat) :
    ∀ (pos : Nat) (m : Option Nat) (hc : Bool),
      pos ≤ (content_loop rem pos m hc).pos ∧
      (hc = true → (content_loop rem pos m hc).has_content = true) ∧
      ((content_loop rem pos m hc).has_content = false →
        hc = false ∧ (content_loop rem pos m hc).pos ≤ pos + 1) ∧
      ((content_loop rem pos m hc).early = true →
        pos < (content_loop rem pos m hc).pos ∧
        (content_loop rem pos m hc).marked = some ((content_loop rem pos m hc).pos - 1)) ∧
      (hc = false → (content_loop rem pos m hc).has_content = true →
        pos < (content_loop rem pos m hc).pos ∧
        ((content_loop rem pos m hc).early = true →
          pos + 1 < (content_loop rem pos m hc).pos)) := by
  induction rem with
  | nil =>
    intro pos m hc
    simp [content_loop]
  | cons c rest ih =>
    intro pos m hc
    simp only [content_loop]
    split_ifs with h1 h2 h3 h4
    · simp
    · simp
    · -- "${" found: early return
      refine ⟨by simp, by simp, by simp, by simp, ?_⟩
      intro h5 h6
      simp at h6
      simp [h5] at h6
    · -- '$' consumed as ordinary content
      obtain ⟨b1, b2, b3, b4, b5⟩ := ih (pos + 1) (some pos) true
      refine ⟨by omega, fun _ => b2 rfl, ?_, ?_, ?_⟩
      · intro h5
        rw [b2 rfl] at h5
        simp at h5
      · intro h5
        obtain ⟨d1, d2⟩ := b4 h5
        exact ⟨by omega, d2⟩
      · intro _ _
        refine ⟨by omega, ?_⟩
        intro h5
        obtain ⟨d1, _⟩ := b4 h5
        omega
    · -- ordinary character consumed
      obtain ⟨b1, b2, b3, b4, b5⟩ := ih (pos + 1) m true
      refine ⟨by omega, fun _ => b2 rfl, ?_, ?_, ?_⟩
      · intro h5
        rw [b2 rfl] at h5
        simp at h5
      · intro h5
        obtain ⟨d1, d2⟩ := b4 h5
        exact ⟨by omega, d2⟩
      · intro _ _
        refine ⟨by omega, ?_⟩
        intro h5
        obtain ⟨d1, _⟩ := b4 h5
        omega

/-- When the content loop exits through a `break`, the character at the exit
position is a stop character (`'"'`, end of input / NUL, or `'\'`), and no
character strictly before the exit position is a `'$'` followed by `'{'`. -/
theorem content_loop_broke_chars (input : List Nat) (rem : List Nat) :
    ∀ (pos : Nat) (m : Option Nat) (hc : Bool), rem = input.drop pos →
      (content_loop rem pos m hc).early = false →
      (input.getD (content_loop rem pos m hc).pos 0 = 34 ∨
       input.getD (content_loop rem pos m hc).pos 0 = 0 ∨
       input.getD (content_loop rem pos m hc).pos 0 = 92) ∧
      (∀ i, pos ≤ i → i < (content_loop rem pos m hc).pos →
        input.getD i 0 = 36 → input.getD (i + 1) 0 ≠ 123) := by
  induction rem with
  | nil =>
    intro pos m hc hlink _
    have h0 := drop_eq_nil_head input pos hlink.symm
    refine ⟨Or.inr (Or.inl ?_), ?_⟩
    · exact h0
    · intro i hi1 hi2
      dsimp only [content_loop] at hi2
      omega
  | cons c rest ih =>
    intro pos m hc hlink hearly
    have hhead := drop_eq_cons_head input pos c rest hlink.symm
    have hrest : input.drop (pos + 1) = rest := drop_cons_rest input pos c rest hlink.symm
    have hnext : input.getD (pos + 1) 0 = rest.getD 0 0 := by
      have := getD_drop_aux input (pos + 1) 0
      rw [hrest] at this
      rw [← this]
    by_cases hA : c = 34 ∨ c = 0
    · have he : content_loop (c :: rest) pos m hc = ⟨false, pos, m, hc⟩ := by
        simp only [content_loop]
        rw [if_pos hA]
      rw [he] at hearly ⊢
      refine ⟨?_, ?_⟩
      · rcases hA with h | h
        · exact Or.inl (by rw [hhead, h])
        · exact Or.inr (Or.inl (by rw [hhead, h]))
      · intro i hi1 hi2
        dsimp only at hi2
        omega
    · by_cases hB : c = 92
      · have he : content_loop (c :: rest) pos m hc = ⟨false, pos, m, hc⟩ := by
          simp only [content_loop]
          rw [if_neg hA, if_pos hB]
        rw [he] at hearly ⊢
        refine ⟨Or.inr (Or.inr (by rw [hhead, hB])), ?_⟩
        intro i hi1 hi2
        dsimp only at hi2
        omega
      · by_cases hC : c = 36
        · by_cases hD : rest.getD 0 0 = 123
          · have he : content_loop (c :: rest) pos m hc =
                ⟨true, pos + 1, some pos, hc⟩ := by
              simp only [content_loop]
              rw [if_neg hA, if_neg hB, if_pos hC, if_pos hD]
            rw [he] at hearly
            exact absurd hearly (by simp)
          · -- '$' consumed as content; the next character is not '{'
            have he : content_loop (c :: rest) pos m hc =
                content_loop rest (pos + 1) (some pos) true := by
              simp only [content_loop]
              rw [if_neg hA, if_neg hB, if_pos hC, if_neg hD]
            rw [he] at hearly ⊢
            obtain ⟨s1, s2⟩ := ih (pos + 1) (some pos) true hrest.symm hearly
            refine ⟨s1, ?_⟩
            intro i hi1 hi2 hi3
            rcases Nat.eq_or_lt_of_le hi1 with h | h
            · subst h
              rw [hnext]
              exact hD
            · exact s2 i h hi2 hi3
        · -- ordinary character consumed
          have he : content_loop (c :: rest) pos m hc =
              content_loop rest (pos + 1) m true := by
            simp only [content_loop]
            rw [if_neg hA, if_neg hB, if_neg hC]
          rw [he] at hearly ⊢
          obtain ⟨s1, s2⟩ := ih (pos + 1) m true hrest.symm hearly
          refine ⟨s1, ?_⟩
          intro i hi1 hi2 hi3
          rcases Nat.eq_or_lt_of_le hi1 with h | h
          · subst h
            rw [hhead] at hi3
            exact absurd hi3 hC
          · exact s2 i h hi2 hi3

/-- When the content loop exits early on a recognized `"${"`, the marked
position (one before the exit position) holds the `'$'`, the exit position
holds the `'{'`, and no earlier consumed pair forms `"${"`. -/
theorem content_loop_early_chars (input : List Nat) (rem : List Nat) :
    ∀ (pos : Nat) (m : Option Nat) (hc : Bool), rem = input.drop pos →
      (content_loop rem pos m hc).early = true →
      input.getD ((content_loop rem pos m hc).pos - 1) 0 = 36 ∧
      input.getD ((content_loop rem pos m hc).pos) 0 = 123 ∧
      (∀ i, pos ≤ i → i + 1 < (content_loop rem pos m hc).pos →
        input.getD i 0 = 36 → input.getD (i + 1) 0 ≠ 123) := by
  induction rem with
  | nil =>
    intro pos m hc hlink hearly
    simp [content_loop] at hearly
  | cons c rest ih =>
    intro pos m hc hlink hearly
    have hhead := drop_eq_cons_head input pos c rest hlink.symm
    have hrest : input.drop (pos + 1) = rest := drop_cons_rest input pos c rest hlink.symm
    have hnext : input.getD (pos + 1) 0 = rest.getD 0 0 := by
      have := getD_drop_aux input (pos + 1) 0
      rw [hrest] at this
      rw [← this]
    by_cases hA : c = 34 ∨ c = 0
    · have he : content_loop (c :: rest) pos m hc = ⟨false, pos, m, hc⟩ := by
        simp only [content_loop]
        rw [if_pos hA]
      rw [he] at hearly
      exact absurd hearly (by simp)
    · by_cases hB : c = 92
      · have he : content_loop (c :: rest) pos m hc = ⟨false, pos, m, hc⟩ := by
          simp only [content_loop]
          rw [if_neg hA, if_pos hB]
        rw [he] at hearly
        exact absurd hearly (by simp)
      · by_cases hC : c = 36
        · by_cases hD : rest.getD 0 0 = 123
          · -- the early exit itself
            have he : content_loop (c :: rest) pos m hc =
                ⟨true, pos + 1, some pos, hc⟩ := by
              simp only [content_loop]
              rw [if_neg hA, if_neg hB, if_pos hC, if_pos hD]
            rw [he]
            refine ⟨?_, ?_, ?_⟩
            · show input.getD (pos + 1 - 1) 0 = 36
              rw [Nat.add_sub_cancel, hhead, hC]
            · show input.getD (pos + 1) 0 = 123
              rw [hnext, hD]
            · intro i hi1 hi2
              dsimp only at hi2
              omega
          · have he : content_loop (c :: rest) pos m hc =
                content_loop rest (pos + 1) (some pos) true := by
              simp only [content_loop]
              rw [if_neg hA, if_neg hB, if_pos hC, if_neg hD]
            rw [he] at hearly ⊢
            obtain ⟨s1, s2, s3⟩ := ih (pos + 1) (some pos) true hrest.symm hearly
            refine ⟨s1, s2, ?_⟩
            intro i hi1 hi2 hi3
            rcases Nat.eq_or_lt_of_le hi1 with h | h
            · subst h
              rw [hnext]
              exact hD
            · exact s3 i h hi2 hi3
        · have he : content_loop (c :: rest) pos m hc =
              content_loop rest (pos + 1) m true := by
            simp only [content_loop]
            rw [if_neg hA, if_neg hB, if_neg hC]
          rw [he] at hearly ⊢
          obtain ⟨s1, s2, s3⟩ := ih (pos + 1) m true hrest.symm hearly
          refine ⟨s1, s2, ?_⟩
          intro i hi1 hi2 hi3
          rcases Nat.eq_or_lt_of_le hi1 with h | h
          · subst h
            rw [hhead] at hi3
            exact absurd hi3 hC
          · exact s3 i h hi2 hi3

/-! ### Shape lemmas for the scan branches -/

theorem cexit_basic (l : TSLexer) :
    l.pos ≤ (cexit l).pos ∧
    ((cexit l).has_content = false → (cexit l).pos ≤ l.pos + 1) ∧
    ((cexit l).early = true →
      l.pos < (cexit l).pos ∧ (cexit l).marked = some ((cexit l).pos - 1)) ∧
    ((cexit l).has_content = true →
      l.pos < (cexit l).pos ∧
      ((cexit l).early = true → l.pos + 1 < (cexit l).pos)) := by
  obtain ⟨b1, b2, b3, b4, b5⟩ :=
    content_loop_basic (l.input.drop l.pos) l.pos l.marked false
  exact ⟨b1, fun h => (b3 h).2, b4, b5 rfl⟩

theorem cexit_broke_chars (l : TSLexer) (he : (cexit l).early = false) :
    (l.input.getD (cexit l).pos 0 = 34 ∨ l.input.getD (cexit l).pos 0 = 0 ∨
     l.input.getD (cexit l).pos 0 = 92) ∧
    (∀ i, l.pos ≤ i → i < (cexit l).pos →
      l.input.getD i 0 = 36 → l.input.getD (i + 1) 0 ≠ 123) :=
  content_loop_broke_chars l.input (l.input.drop l.pos) l.pos l.marked false rfl he

theorem cexit_early_chars (l : TSLexer) (he : (cexit l).early = true) :
    l.input.getD ((cexit l).pos - 1) 0 = 36 ∧
    l.input.getD ((cexit l).pos) 0 = 123 ∧
    (∀ i, l.pos ≤ i → i + 1 < (cexit l).pos →
      l.input.getD i 0 = 36 → l.input.getD (i + 1) 0 ≠ 123) :=
  content_loop_early_chars l.input (l.input.drop l.pos) l.pos l.marked false rfl he

theorem ssc_early (s : Scanner) (l : TSLexer) (he : (cexit l).early = true) :
    scan_string_content s l =
      ⟨(cexit l).has_content, s,
       ⟨l.input, (cexit l).pos, (cexit l).marked, l.result_symbol⟩⟩ := by
  show (let e := cexit l; if e.early then _ else _) = _
  rw [if_pos he]

theorem ssc_broke_true (s : Scanner) (l : TSLexer) (he : (cexit l).early = false)
    (hh : (cexit l).has_content = true) :
    scan_string_content s l =
      ⟨true, s, ⟨l.input, (cexit l).pos, some (cexit l).pos, .STRING_CONTENT⟩⟩ := by
  show (let e := cexit l; if e.early then _ else if e.has_content then _ else _) = _
  rw [if_neg (by rw [he]; exact Bool.false_ne_true), if_pos hh]

theorem ssc_broke_false (s : Scanner) (l : TSLexer) (he : (cexit l).early = false)
    (hh : (cexit l).has_content = false) :
    scan_string_content s l =
      ⟨false, s, ⟨l.input, (cexit l).pos, (cexit l).marked, l.result_symbol⟩⟩ := by
  show (let e := cexit l; if e.early then _ else if e.has_content then _ else _) = _
  rw [if_neg (by rw [he]; exact Bool.false_ne_true),
      if_neg (by rw [hh]; exact Bool.false_ne_true)]

theorem scan_eq_close (s : Scanner) (l : TSLexer) (v : ValidSymbols)
    (h : v.string_interpolation_start = false ∨ l.input.getD l.pos 0 ≠ 36) :
    scan s l v = scan_from_close s l v := by
  unfold scan
  rcases h with h | h
  · rw [if_neg (by rw [h]; exact Bool.false_ne_true)]
  · by_cases hv : v.string_interpolation_start = true
    · rw [if_pos hv, if_neg h]
    · rw [if_neg hv]

theorem scan_eq_dollar (s : Scanner) (l : TSLexer) (v : ValidSymbols)
    (hv : v.string_interpolation_start = true)
    (h1 : l.input.getD l.pos 0 = 36) (h2 : l.input.getD (l.pos + 1) 0 ≠ 123) :
    scan s l v = scan_from_close s { l with pos := l.pos + 1 } v := by
  unfold scan
  rw [if_pos hv, if_pos h1, if_neg h2]

theorem scan_open_eq (s : Scanner) (l : TSLexer) (v : ValidSymbols)
    (hv : v.string_interpolation_start = true)
    (h1 : l.input.getD l.pos 0 = 36) (h2 : l.input.getD (l.pos + 1) 0 = 123) :
    scan s l v =
      ⟨true, ⟨1⟩, ⟨l.input, l.pos + 2, some (l.pos + 2), .STRING_INTERPOLATION_START⟩⟩ := by
  unfold scan
  rw [if_pos hv, if_pos h1, if_pos h2]

theorem close_eq_content (s : Scanner) (l : TSLexer) (v : ValidSymbols)
    (h : ¬(l.input.getD l.pos 0 = 125 ∧ 0 < s.brace_depth)) :
    scan_from_close s l v = scan_from_content s l v := by
  unfold scan_from_close
  by_cases hv : v.string_interpolation_end = true
  · rw [hv, if_pos rfl, if_neg h]
  · rw [if_neg hv]

theorem close_fires (s : Scanner) (l : TSLexer) (v : ValidSymbols)
    (hv : v.string_interpolation_end = true)
    (h1 : l.input.getD l.pos 0 = 125) (h2 : 0 < s.brace_depth) :
    scan_from_close s l v =
      ⟨true, ⟨0⟩, ⟨l.input, l.pos + 1, some (l.pos + 1), .STRING_INTERPOLATION_END⟩⟩ := by
  unfold scan_from_close
  rw [hv, if_pos rfl, if_pos ⟨h1, h2⟩]

theorem content_invalid (s : Scanner) (l : TSLexer) (v : ValidSymbols)
    (h : v.string_content = false) :
    scan_from_content s l v = ⟨false, s, l⟩ := by
  unfold scan_from_content
  rw [if_neg (by rw [h]; exact Bool.false_ne_true)]

theorem content_valid (s : Scanner) (l : TSLexer) (v : ValidSymbols)
    (h : v.string_content = true) :
    scan_from_content s l v = scan_string_content s l := by
  unfold scan_from_content
  rw [if_pos h]

theorem close_invalid (s : Scanner) (l : TSLexer) (v : ValidSymbols)
    (hv : v.string_interpolation_end = false) :
    scan_from_close s l v = scan_from_content s l v := by
  unfold scan_from_close
  rw [if_neg (by rw [hv]; exact Bool.false_ne_true)]

theorem emits_def (o : ScanOut) (t : TokenType) :
    emits o t ↔ (o.returned = true ∧ o.lexer.result_symbol = t) := Iff.rfl

/-! ### Decline behaviour -/

/-- A declined `STRING_CONTENT` branch leaves the scanner state and the
result slot untouched and has advanced at most one position (the
speculative `'$'` of the `"${"` peek). -/
theorem ssc_decline (s : Scanner) (l : TSLexer)
    (h : (scan_string_content s l).returned = false) :
    (scan_string_content s l).scanner = s ∧
    (scan_string_content s l).lexer.result_symbol = l.result_symbol ∧
    l.pos ≤ (scan_string_content s l).lexer.pos ∧
    (scan_string_content s l).lexer.pos ≤ l.pos + 1 := by
  obtain ⟨b1, b2, b3, b4⟩ := cexit_basic l
  by_cases he : (cexit l).early = true
  · rw [ssc_early s l he] at h ⊢
    dsimp only at h ⊢
    exact ⟨rfl, rfl, b1, b2 h⟩
  · have he' : (cexit l).early = false := by simpa using he
    by_cases hh : (cexit l).has_content = true
    · rw [ssc_broke_true s l he' hh] at h
      exact absurd h (by simp)
    · have hh' : (cexit l).has_content = false := by simpa using hh
      rw [ssc_broke_false s l he' hh'] at h ⊢
      dsimp only
      exact ⟨rfl, rfl, b1, b2 hh'⟩

/-- A declined scan starting from the `STRING_INTERPOLATION_END` branch
keeps the scanner state and the result slot, moving at most one position. -/
theorem sfc_decline (s : Scanner) (l : TSLexer) (v : ValidSymbols)
    (h : (scan_from_close s l v).returned = false) :
    (scan_from_close s l v).scanner = s ∧
    (scan_from_close s l v).lexer.result_symbol = l.result_symbol ∧
    l.pos ≤ (scan_from_close s l v).lexer.pos ∧
    (scan_from_close s l v).lexer.pos ≤ l.pos + 1 := by
  rcases Decidable.em (v.string_interpolation_end = true ∧
      l.input.getD l.pos 0 = 125 ∧ 0 < s.brace_depth) with hg | hg
  · rw [close_fires s l v hg.1 hg.2.1 hg.2.2] at h
    exact absurd h (by simp)
  · have heq : scan_from_close s l v = scan_from_content s l v := by
      by_cases hv : v.string_interpolation_end = true
      · exact close_eq_content s l v (fun hc => hg ⟨hv, hc⟩)
      · exact close_invalid s l v (by simpa using hv)
    rw [heq] at h ⊢
    by_cases hcv : v.string_content = true
    · rw [content_valid s l v hcv] at h ⊢
      exact ssc_decline s l h
    · rw [content_invalid s l v (by simpa using hcv)]
      exact ⟨rfl, rfl, Nat.le_refl _, Nat.le_succ _⟩

/-- With the result slot host-initialised to `STRING_CONTENT`, the content
branch can never make the scan report an `STRING_INTERPOLATION_END` token. -/
theorem content_not_end (s : Scanner) (l : TSLexer) (v : ValidSymbols)
    (hres : l.result_symbol = .STRING_CONTENT) :
    ¬ emits (scan_from_content s l v) .STRING_INTERPOLATION_END := by
  intro hem
  rw [emits_def] at hem
  by_cases hcv : v.string_content = true
  · rw [content_valid s l v hcv] at hem
    by_cases he : (cexit l).early = true
    · rw [ssc_early s l he] at hem
      have h2 := hem.2
      dsimp only at h2
      rw [hres] at h2
      exact absurd h2 (by simp)
    · have he' : (cexit l).early = false := by simpa using he
      by_cases hh : (cexit l).has_content = true
      · rw [ssc_broke_true s l he' hh] at hem
        exact absurd hem.2 (by simp)
      · have hh' : (cexit l).has_content = false := by simpa using hh
        rw [ssc_broke_false s l he' hh'] at hem
        exact absurd hem.1 (by simp)
  · rw [content_invalid s l v (by simpa using hcv)] at hem
    exact absurd hem.1 (by simp)

/-- A single scan either leaves the state alone or sets it to exactly 1
(open) or exactly 0 (close). -/
theorem scan_scanner_cases (s : Scanner) (l : TSLexer) (v : ValidSymbols) :
    (scan s l v).scanner = s ∨ (scan s l v).scanner = ⟨1⟩ ∨
    (scan s l v).scanner = ⟨0⟩ := by
  simp only [scan, scan_from_close, scan_from_content, scan_string_content]
  split_ifs <;> simp

/-- Deserializing the serialized image of a state with `brace_depth` 0 or 1
restores that state, whatever the prior state was. -/
theorem roundtrip01 (t : Scanner) (d : Int) (hd : d = 0 ∨ d = 1) :
    deserialize t (serialize ⟨d⟩) (serialize ⟨d⟩).length = ⟨d⟩ := by
  rcases hd with h | h <;> subst h <;> rfl

theorem close_skip (s : Scanner) (l : TSLexer) (v : ValidSymbols)
    (hg : ¬(v.string_interpolation_end = true ∧ l.input.getD l.pos 0 = 125 ∧
        0 < s.brace_depth)) :
    scan_from_close s l v = scan_from_content s l v := by
  by_cases hv : v.string_interpolation_end = true
  · exact close_eq_content s l v (fun hc => hg ⟨hv, hc⟩)
  · exact close_invalid s l v (by simpa using hv)

/-- When the content branch emits a `STRING_CONTENT` token, the committed
span is nonempty, ends right before a stop character (quote, NUL/end of
input, backslash, or a recognized `"${"`), and contains no `'$'` that is
immediately followed by `'{'`. -/
theorem ssc_span (s : Scanner) (l : TSLexer)
    (hem : emits (scan_string_content s l) .STRING_CONTENT) :
    l.pos < commitEnd (scan_string_content s l) ∧
    (l.input.getD (commitEnd (scan_string_content s l)) 0 = 34 ∨
     l.input.getD (commitEnd (scan_string_content s l)) 0 = 0 ∨
     l.input.getD (commitEnd (scan_string_content s l)) 0 = 92 ∨
     (l.input.getD (commitEnd (scan_string_content s l)) 0 = 36 ∧
      l.input.getD (commitEnd (scan_string_content s l) + 1) 0 = 123)) ∧
    (∀ i, l.pos ≤ i → i < commitEnd (scan_string_content s l) →
      l.input.getD i 0 = 36 → l.input.getD (i + 1) 0 ≠ 123) := by
  rw [emits_def] at hem
  obtain ⟨b1, b2, b3, b4⟩ := cexit_basic l
  by_cases he : (cexit l).early = true
  · obtain ⟨c1, c2, c3⟩ := cexit_early_chars l he
    rw [ssc_early s l he] at hem ⊢
    have hh : (cexit l).has_content = true := hem.1
    have hlt : l.pos + 1 < (cexit l).pos := (b4 hh).2 he
    have hm : (cexit l).marked = some ((cexit l).pos - 1) := (b3 he).2
    have hce : commitEnd ⟨(cexit l).has_content, s,
        ⟨l.input, (cexit l).pos, (cexit l).marked, l.result_symbol⟩⟩ =
        (cexit l).pos - 1 := by
      unfold commitEnd
      dsimp only
      rw [hm]
      rfl
    rw [hce]
    refine ⟨by omega, ?_, ?_⟩
    · refine Or.inr (Or.inr (Or.inr ⟨c1, ?_⟩))
      have hp1 : (cexit l).pos - 1 + 1 = (cexit l).pos := by omega
      rw [hp1]
      exact c2
    · intro i hi1 hi2 hi3
      exact c3 i hi1 (by omega) hi3
  · have he' : (cexit l).early = false := by simpa using he
    obtain ⟨c1, c2⟩ := cexit_broke_chars l he'
    by_cases hh : (cexit l).has_content = true
    · rw [ssc_broke_true s l he' hh] at hem ⊢
      have hce : commitEnd ⟨true, s,
          ⟨l.input, (cexit l).pos, some (cexit l).pos, .STRING_CONTENT⟩⟩ =
          (cexit l).pos := rfl
      rw [hce]
      refine ⟨(b4 hh).1, ?_, c2⟩
      rcases c1 with h | h | h
      · exact Or.inl h
      · exact Or.inr (Or.inl h)
      · exact Or.inr (Or.inr (Or.inl h))
    · have hh' : (cexit l).has_content = false := by simpa using hh
      rw [ssc_broke_false s l he' hh'] at hem
      exact absurd hem.1 (by simp)

/-- The span facts of `ssc_span` lifted through the whole `scan`, including
the case where the open branch consumed a leading `'$'` that becomes part of
the content token. -/
theorem scan_content_span (s : Scanner) (l : TSLexer) (v : ValidSymbols)
    (hem : emits (scan s l v) .STRING_CONTENT) :
    l.pos < commitEnd (scan s l v) ∧
    (l.input.getD (commitEnd (scan s l v)) 0 = 34 ∨
     l.input.getD (commitEnd (scan s l v)) 0 = 0 ∨
     l.input.getD (commitEnd (scan s l v)) 0 = 92 ∨
     (l.input.getD (commitEnd (scan s l v)) 0 = 36 ∧
      l.input.getD (commitEnd (scan s l v) + 1) 0 = 123)) ∧
    (∀ i, l.pos ≤ i → i + 1 < commitEnd (scan s l v) →
      ¬(l.input.getD i 0 = 36 ∧ l.input.getD (i + 1) 0 = 123)) := by
  rcases Decidable.em (v.string_interpolation_start = true ∧
      l.input.getD l.pos 0 = 36) with hs | hs
  · by_cases h2 : l.input.getD (l.pos + 1) 0 = 123
    · rw [scan_open_eq s l v hs.1 hs.2 h2] at hem
      rw [emits_def] at hem
      exact absurd hem.2 (by simp)
    · rw [scan_eq_dollar s l v hs.1 hs.2 h2] at hem ⊢
      have hp : ({ l with pos := l.pos + 1 } : TSLexer).pos = l.pos + 1 := rfl
      rcases Decidable.em (v.string_interpolation_end = true ∧
          ({ l with pos := l.pos + 1 } : TSLexer).input.getD
            ({ l with pos := l.pos + 1 } : TSLexer).pos 0 = 125 ∧
          0 < s.brace_depth) with hgg | hgg
      · rw [close_fires s { l with pos := l.pos + 1 } v hgg.1 hgg.2.1 hgg.2.2] at hem
        rw [emits_def] at hem
        exact absurd hem.2 (by simp)
      · rw [close_skip s { l with pos := l.pos + 1 } v hgg] at hem ⊢
        by_cases hcv : v.string_content = true
        · rw [content_valid s { l with pos := l.pos + 1 } v hcv] at hem ⊢
          obtain ⟨sp1, sp2, sp3⟩ := ssc_span s { l with pos := l.pos + 1 } hem
          rw [hp] at sp1
          refine ⟨by omega, sp2, ?_⟩
          intro i hi1 hi2 hi3
          rcases Nat.eq_or_lt_of_le hi1 with hq | hq
          · subst hq
            exact h2 hi3.2
          · refine sp3 i ?_ (by omega) hi3.1 hi3.2
            rw [hp]
            omega
        · rw [content_invalid s { l with pos := l.pos + 1 } v (by simpa using hcv)] at hem
          rw [emits_def] at hem
          exact absurd hem.1 (by simp)
  · have hd : v.string_interpolation_start = false ∨ l.input.getD l.pos 0 ≠ 36 := by
      by_cases hv : v.string_interpolation_start = true
      · exact Or.inr (fun hc => hs ⟨hv, hc⟩)
      · exact Or.inl (by simpa using hv)
    rw [scan_eq_close s l v hd] at hem ⊢
    rcases Decidable.em (v.string_interpolation_end = true ∧
        l.input.getD l.pos 0 = 125 ∧ 0 < s.brace_depth) with hgg | hgg
    · rw [close_fires s l v hgg.1 hgg.2.1 hgg.2.2] at hem
      rw [emits_def] at hem
      exact absurd hem.2 (by simp)
    · rw [close_skip s l v hgg] at hem ⊢
      by_cases hcv : v.string_content = true
      · rw [content_valid s l v hcv] at hem ⊢
        obtain ⟨sp1, sp2, sp3⟩ := ssc_span s l hem
        refine ⟨sp1, sp2, ?_⟩
        intro i hi1 hi2 hi3
        exact sp3 i hi1 (by omega) hi3.1 hi3.2
      · rw [content_invalid s l v (by simpa using hcv)] at hem
        rw [emits_def] at hem
        exact absurd hem.1 (by simp)

/-! ### The claims -/

/-- Claim C1 is false as stated: with only InterpolationOpen accepted and
remaining input `"$"`, the scan declines but the cursor has moved from
position 0 to position 1 — the speculative `'$'` consumption is not undone. -/
theorem C1_counterexample :
    (scan ⟨0⟩ ⟨[36], 0, none, .STRING_CONTENT⟩ ⟨false, true, false⟩).returned = false ∧
    (scan ⟨0⟩ ⟨[36], 0, none, .STRING_CONTENT⟩ ⟨false, true, false⟩).lexer.pos ≠ 0 := by
  decide

/-- Claim C1 (amended): when the scan declines, the scanner state and the
result slot are untouched, and the cursor has advanced by at most two
positions (one speculative `'$'` in the open branch and one in the content
branch's `"${"` peek); it is not restored to its starting position. -/
theorem C1_decline_frame (s : Scanner) (l : TSLexer) (v : ValidSymbols)
    (h : (scan s l v).returned = false) :
    (scan s l v).scanner = s ∧
    (scan s l v).lexer.result_symbol = l.result_symbol ∧
    l.pos ≤ (scan s l v).lexer.pos ∧
    (scan s l v).lexer.pos ≤ l.pos + 2 := by
  rcases Decidable.em (v.string_interpolation_start = true ∧
      l.input.getD l.pos 0 = 36) with hs | hs
  · by_cases h2 : l.input.getD (l.pos + 1) 0 = 123
    · rw [scan_open_eq s l v hs.1 hs.2 h2] at h
      exact absurd h (by simp)
    · rw [scan_eq_dollar s l v hs.1 hs.2 h2] at h ⊢
      obtain ⟨d1, d2, d3, d4⟩ := sfc_decline s { l with pos := l.pos + 1 } v h
      have e3 : l.pos + 1 ≤
          (scan_from_close s { l with pos := l.pos + 1 } v).lexer.pos := d3
      have e4 : (scan_from_close s { l with pos := l.pos + 1 } v).lexer.pos ≤
          l.pos + 1 + 1 := d4
      exact ⟨d1, d2, by omega, by omega⟩
  · have hd : v.string_interpolation_start = false ∨ l.input.getD l.pos 0 ≠ 36 := by
      by_cases hv : v.string_interpolation_start = true
      · exact Or.inr (fun hc => hs ⟨hv, hc⟩)
      · exact Or.inl (by simpa using hv)
    rw [scan_eq_close s l v hd] at h ⊢
    obtain ⟨d1, d2, d3, d4⟩ := sfc_decline s l v h
    exact ⟨d1, d2, d3, by omega⟩

theorem C1_decline_frame_witness :
    (scan ⟨0⟩ ⟨[36, 36, 123], 0, none, .STRING_CONTENT⟩ ⟨true, true, false⟩).scanner = ⟨0⟩ ∧
    (scan ⟨0⟩ ⟨[36, 36, 123], 0, none, .STRING_CONTENT⟩
        ⟨true, true, false⟩).lexer.result_symbol = TokenType.STRING_CONTENT ∧
    0 ≤ (scan ⟨0⟩ ⟨[36, 36, 123], 0, none, .STRING_CONTENT⟩ ⟨true, true, false⟩).lexer.pos ∧
    (scan ⟨0⟩ ⟨[36, 36, 123], 0, none, .STRING_CONTENT⟩ ⟨true, true, false⟩).lexer.pos ≤ 0 + 2 :=
  C1_decline_frame ⟨0⟩ ⟨[36, 36, 123], 0, none, .STRING_CONTENT⟩ ⟨true, true, false⟩
    (by decide)

/-- Claim C2 is false as stated: with only InterpolationOpen accepted and
remaining input `"$x"`, the open branch consumes the `'$'` and does not
restore the cursor before falling through — the scan declines with the
cursor at 1, not 0. -/
theorem C2_counterexample :
    (scan ⟨0⟩ ⟨[36, 120], 0, none, .STRING_CONTENT⟩ ⟨false, true, false⟩).returned = false ∧
    (scan ⟨0⟩ ⟨[36, 120], 0, none, .STRING_CONTENT⟩ ⟨false, true, false⟩).lexer.pos = 1 := by
  decide

/-- Claim C2 (amended): in the InterpolationOpen branch, when the next
character is `'$'` but the one after it is not `'{'`, control falls through
to the remaining branches with the `'$'` consumed: the scan continues at
position `pos + 1`, without restoring the cursor. -/
theorem C2_dollar_fallthrough (s : Scanner) (l : TSLexer) (v : ValidSymbols)
    (hv : v.string_interpolation_start = true)
    (h1 : l.input.getD l.pos 0 = 36) (h2 : l.input.getD (l.pos + 1) 0 ≠ 123) :
    scan s l v = scan_from_close s { l with pos := l.pos + 1 } v :=
  scan_eq_dollar s l v hv h1 h2

theorem C2_dollar_fallthrough_witness :
    scan ⟨0⟩ ⟨[36, 120], 0, none, .STRING_CONTENT⟩ ⟨true, true, true⟩ =
      scan_from_close ⟨0⟩ ⟨[36, 120], 1, none, .STRING_CONTENT⟩ ⟨true, true, true⟩ :=
  C2_dollar_fallthrough ⟨0⟩ ⟨[36, 120], 0, none, .STRING_CONTENT⟩ ⟨true, true, true⟩
    rfl rfl (by decide)

/-- Claim C3: along every session history — creation, scans, and restores of
serialized snapshots — `brace_depth` is always 0 or 1. -/
theorem C3_brace_depth_invariant : ∀ s : Scanner, Reachable s →
    s.brace_depth = 0 ∨ s.brace_depth = 1 := by
  intro s h
  induction h with
  | initial => exact Or.inl rfl
  | step s l v _ ih =>
    rcases scan_scanner_cases s l v with h1 | h1 | h1
    · rw [h1]; exact ih
    · rw [h1]; exact Or.inr rfl
    · rw [h1]; exact Or.inl rfl
  | restore s t _ _ ihs _ =>
    obtain ⟨d⟩ := s
    rw [roundtrip01 t d ihs]
    exact ihs

theorem C3_brace_depth_invariant_witness :
    create.brace_depth = 0 ∨ create.brace_depth = 1 :=
  C3_brace_depth_invariant create Reachable.initial

/-- Claim C4 names a code bug: `deserialize` with a zero-length buffer is
meant to leave the state as a fresh zero value, but the code only guards the
`memcpy` with `length > 0` and never clears the state, so a prior
`brace_depth = 1` survives, contradicting the intended reset. -/
theorem C4_deserialize_empty_keeps_state :
    deserialize ⟨1⟩ [] 0 = ⟨1⟩ ∧ (deserialize ⟨1⟩ [] 0).brace_depth ≠ 0 := by
  decide

/-- Claim C5 is false as stated: with InterpolationOpen and InterpolationClose
both accepted, `brace_depth = 1` and remaining input `"$}"`, the scan emits
InterpolationClose although the next character is `'$'`, and it consumes and
commits two characters instead of exactly one. -/
theorem C5_counterexample :
    emits (scan ⟨1⟩ ⟨[36, 125], 0, none, .STRING_CONTENT⟩ ⟨false, true, true⟩)
        .STRING_INTERPOLATION_END ∧
    ([36, 125] : List Nat).getD 0 0 ≠ 125 ∧
    (scan ⟨1⟩ ⟨[36, 125], 0, none, .STRING_CONTENT⟩ ⟨false, true, true⟩).lexer.pos = 2 ∧
    commitEnd (scan ⟨1⟩ ⟨[36, 125], 0, none, .STRING_CONTENT⟩ ⟨false, true, true⟩) = 2 := by
  decide

/-- Claim C5 (amended): provided the open branch does not first consume a
`'$'` (open unaccepted or next character not `'$'`), and with the result slot
host-initialised, a scan with InterpolationClose accepted emits
InterpolationClose iff the next character is `'}'` and `brace_depth > 0`; on
success it consumes and commits exactly that character and zeroes
`brace_depth`; with `brace_depth = 0` it declines on `'}'` (when no content
branch runs), leaving the `'}'` unconsumed. -/
theorem C5_interpolation_close (s : Scanner) (l : TSLexer) (v : ValidSymbols)
    (hv : v.string_interpolation_end = true)
    (hres : l.result_symbol = .STRING_CONTENT)
    (hopen : v.string_interpolation_start = false ∨ l.input.getD l.pos 0 ≠ 36) :
    (emits (scan s l v) .STRING_INTERPOLATION_END ↔
      (l.input.getD l.pos 0 = 125 ∧ 0 < s.brace_depth)) ∧
    (l.input.getD l.pos 0 = 125 → 0 < s.brace_depth →
      scan s l v = ⟨true, ⟨0⟩, ⟨l.input, l.pos + 1, some (l.pos + 1),
        .STRING_INTERPOLATION_END⟩⟩) ∧
    (s.brace_depth = 0 → l.input.getD l.pos 0 = 125 → v.string_content = false →
      (scan s l v).returned = false ∧ (scan s l v).lexer.pos = l.pos) := by
  rw [scan_eq_close s l v hopen]
  by_cases hg : l.input.getD l.pos 0 = 125 ∧ 0 < s.brace_depth
  · rw [close_fires s l v hv hg.1 hg.2]
    refine ⟨?_, fun _ _ => rfl, ?_⟩
    · constructor
      · intro _
        exact hg
      · intro _
        exact (emits_def _ _).mpr ⟨rfl, rfl⟩
    · intro hd0 _ _
      exact absurd hg.2 (by omega)
  · rw [close_eq_content s l v hg]
    refine ⟨?_, ?_, ?_⟩
    · constructor
      · intro hem
        exact absurd hem (content_not_end s l v hres)
      · intro hc
        exact absurd hc hg
    · intro h1 h2
      exact absurd ⟨h1, h2⟩ hg
    · intro hd0 h125 hcv
      rw [content_invalid s l v hcv]
      exact ⟨rfl, rfl⟩

theorem C5_interpolation_close_witness :
    emits (scan ⟨1⟩ ⟨[125], 0, none, .STRING_CONTENT⟩ ⟨false, false, true⟩)
        .STRING_INTERPOLATION_END ↔
      (([125] : List Nat).getD 0 0 = 125 ∧ (0 : Int) < 1) :=
  (C5_interpolation_close ⟨1⟩ ⟨[125], 0, none, .STRING_CONTENT⟩ ⟨false, false, true⟩
    rfl rfl (Or.inr (by decide))).1

/-- Claim C6: a committed `STRING_CONTENT` span never contains a `'$'`
immediately followed by `'{'`: the content loop peeks ahead on `'$'` and
stops before a recognized opener, leaving both characters unconsumed. -/
theorem C6_no_open_in_content_span (s : Scanner) (l : TSLexer) (v : ValidSymbols)
    (hem : emits (scan s l v) .STRING_CONTENT) :
    ∀ i, l.pos ≤ i → i + 1 < commitEnd (scan s l v) →
      ¬(l.input.getD i 0 = 36 ∧ l.input.getD (i + 1) 0 = 123) :=
  fun i hi1 hi2 => (scan_content_span s l v hem).2.2 i hi1 hi2

theorem C6_no_open_in_content_span_witness :
    ¬(([97, 36, 98, 34] : List Nat).getD 1 0 = 36 ∧
      ([97, 36, 98, 34] : List Nat).getD 2 0 = 123) :=
  C6_no_open_in_content_span ⟨0⟩ ⟨[97, 36, 98, 34], 0, none, .STRING_CONTENT⟩
    ⟨true, false, false⟩ (by decide) 1 (by decide) (by decide)

/-- Claim C8: a content run stops right before the terminating quote, the end
of input, or the escape introducer without consuming it, and a content token
is never empty; and at a `"${"` with InterpolationOpen accepted the scan
emits InterpolationOpen instead of an empty content token. -/
theorem C8_content_stop_and_nonempty (s : Scanner) (l : TSLexer) (v : ValidSymbols) :
    (emits (scan s l v) .STRING_CONTENT →
      l.pos < commitEnd (scan s l v) ∧
      (l.input.getD (commitEnd (scan s l v)) 0 = 34 ∨
       l.input.getD (commitEnd (scan s l v)) 0 = 0 ∨
       l.input.getD (commitEnd (scan s l v)) 0 = 92 ∨
       (l.input.getD (commitEnd (scan s l v)) 0 = 36 ∧
        l.input.getD (commitEnd (scan s l v) + 1) 0 = 123))) ∧
    (v.string_interpolation_start = true → l.input.getD l.pos 0 = 36 →
      l.input.getD (l.pos + 1) 0 = 123 →
      emits (scan s l v) .STRING_INTERPOLATION_START) := by
  constructor
  · intro hem
    obtain ⟨a1, a2, -⟩ := scan_content_span s l v hem
    exact ⟨a1, a2⟩
  · intro hv h1 h2
    rw [scan_open_eq s l v hv h1 h2]
    exact (emits_def _ _).mpr ⟨rfl, rfl⟩

theorem C8_content_stop_and_nonempty_witness :
    0 < commitEnd (scan ⟨0⟩ ⟨[97, 34], 0, none, .STRING_CONTENT⟩ ⟨true, false, false⟩) ∧
    (([97, 34] : List Nat).getD
        (commitEnd (scan ⟨0⟩ ⟨[97, 34], 0, none, .STRING_CONTENT⟩ ⟨true, false, false⟩)) 0 = 34 ∨
     ([97, 34] : List Nat).getD
        (commitEnd (scan ⟨0⟩ ⟨[97, 34], 0, none, .STRING_CONTENT⟩ ⟨true, false, false⟩)) 0 = 0 ∨
     ([97, 34] : List Nat).getD
        (commitEnd (scan ⟨0⟩ ⟨[97, 34], 0, none, .STRING_CONTENT⟩ ⟨true, false, false⟩)) 0 = 92 ∨
     (([97, 34] : List Nat).getD
        (commitEnd (scan ⟨0⟩ ⟨[97, 34], 0, none, .STRING_CONTENT⟩ ⟨true, false, false⟩)) 0 = 36 ∧
      ([97, 34] : List Nat).getD
        (commitEnd (scan ⟨0⟩ ⟨[97, 34], 0, none, .STRING_CONTENT⟩ ⟨true, false, false⟩) + 1) 0 = 123)) :=
  (C8_content_stop_and_nonempty ⟨0⟩ ⟨[97, 34], 0, none, .STRING_CONTENT⟩
    ⟨true, false, false⟩).1 (by decide)

/-- Claim C9: on remaining input `x$y"` with LiteralTextRun accepted, the scan
consumes `x`, the `$` (not followed by `{`) and `y` as ordinary content and
emits one `STRING_CONTENT` token spanning `x$y`, stopping before the quote. -/
theorem C9_dollar_text_run (s : Scanner) (v : ValidSymbols)
    (hv : v.string_content = true) :
    scan s ⟨[120, 36, 121, 34], 0, none, .STRING_CONTENT⟩ v =
      ⟨true, s, ⟨[120, 36, 121, 34], 3, some 3, .STRING_CONTENT⟩⟩ := by
  rw [scan_eq_close s ⟨[120, 36, 121, 34], 0, none, .STRING_CONTENT⟩ v (Or.inr (by decide)),
      close_skip s ⟨[120, 36, 121, 34], 0, none, .STRING_CONTENT⟩ v
        (fun hc => absurd hc.2.1 (by decide)),
      content_valid s ⟨[120, 36, 121, 34], 0, none, .STRING_CONTENT⟩ v hv,
      ssc_broke_true s ⟨[120, 36, 121, 34], 0, none, .STRING_CONTENT⟩
        (by decide) (by decide)]
  rfl

theorem C9_dollar_text_run_witness :
    scan ⟨0⟩ ⟨[120, 36, 121, 34], 0, none, .STRING_CONTENT⟩ ⟨true, false, false⟩ =
      ⟨true, ⟨0⟩, ⟨[120, 36, 121, 34], 3, some 3, .STRING_CONTENT⟩⟩ :=
  C9_dollar_text_run ⟨0⟩ ⟨true, false, false⟩ rfl

/-- Claim C10: with InterpolationOpen accepted and the next two characters
`'$'` then `'{'`, the scan succeeds, consumes and commits both characters,
and sets `brace_depth` to exactly 1 regardless of its prior value. -/
theorem C10_open_sets_depth_one (s : Scanner) (l : TSLexer) (v : ValidSymbols)
    (hv : v.string_interpolation_start = true)
    (h1 : l.input.getD l.pos 0 = 36) (h2 : l.input.getD (l.pos + 1) 0 = 123) :
    scan s l v = ⟨true, ⟨1⟩, ⟨l.input, l.pos + 2, some (l.pos + 2),
      .STRING_INTERPOLATION_START⟩⟩ :=
  scan_open_eq s l v hv h1 h2

theorem C10_open_sets_depth_one_witness :
    scan ⟨1⟩ ⟨[36, 123], 0, none, .STRING_CONTENT⟩ ⟨false, true, false⟩ =
      ⟨true, ⟨1⟩, ⟨[36, 123], 2, some 2, .STRING_INTERPOLATION_START⟩⟩ :=
  C10_open_sets_depth_one ⟨1⟩ ⟨[36, 123], 0, none, .STRING_CONTENT⟩ ⟨false, true, false⟩
    rfl (by decide) (by decide)

/-- Claim C7: for `brace_depth ∈ {0, 1}`, deserializing the serialize image
restores the state exactly, whatever the prior state was. -/
theorem C7_serialize_roundtrip (s t : Scanner)
    (h : s.brace_depth = 0 ∨ s.brace_depth = 1) :
    deserialize t (serialize s) (serialize s).length = s := by
  obtain ⟨d⟩ := s
  exact roundtrip01 t d h

theorem C7_serialize_roundtrip_witness :
    deserialize ⟨0⟩ (serialize ⟨1⟩) (serialize ⟨1⟩).length = ⟨1⟩ :=
  C7_serialize_roundtrip ⟨1⟩ ⟨0⟩ (Or.inr rfl)
